import Mathlib

/-!
Verification development for the `jsondiff.py` comparison tool.

The source program is shallowly embedded:

* Python floats are modelled as exact rationals extended with the two
  infinities and NaN (`PyFloat`).  The float-tolerance comparisons proved
  below are evaluated only at inputs far from any binary-rounding boundary.
* Decoded documents are modelled by the tagged union `Value`; object keys are
  strings (as produced by the JSON decoder or by the key-fixup pass).
* The recursive comparator and the other recursive traversals take an
  explicit fuel argument so that every definition is structurally recursive
  and kernel-reducible; every recursive call strictly decreases the size of
  its first document argument, so any fuel at least `sizeOf` of that argument
  yields the behaviour of the (always terminating) Python recursion.  The
  lemma `diff_fuel_congr` proves that the result is independent of the fuel
  once the fuel is sufficient.
* `print` calls of the comparator are modelled as emitted `ChangeRecord`
  values carrying the data that the source interpolates into the printed
  line, in emission order.
-/

/-- Python float values: exact rationals plus the special values. -/
inductive PyFloat where
  | finite : ℚ → PyFloat
  | inf : PyFloat
  | neginf : PyFloat
  | nan : PyFloat
deriving DecidableEq, Repr

/-- Python `==` on float values: NaN is unequal to everything, including
itself; each infinity is equal only to itself. -/
def pyNumEq : PyFloat → PyFloat → Bool
  | .finite a, .finite b => decide (a = b)
  | .inf, .inf => true
  | .neginf, .neginf => true
  | _, _ => false

/-- The default relative tolerance of Python `math.isclose` (1e-09). -/
def relTol : ℚ := 1 / 1000000000

/-- The absolute tolerance passed by the source: `abs_tol=0.00001`. -/
def absTol : ℚ := 1 / 100000

/-- Python `math.isclose(a, b, abs_tol=0.00001)` (the default
`rel_tol=1e-09` stays in effect).  CPython first tests `a == b` (which makes
equal infinities close), returns `False` if an infinity remains, and
otherwise tests
`diff <= fabs(rel_tol*b) or diff <= fabs(rel_tol*a) or diff <= abs_tol`;
with NaN every comparison is false. -/
def isclose (a b : PyFloat) : Bool :=
  if pyNumEq a b then true
  else
    match a, b with
    | .finite x, .finite y =>
      decide (|y - x| ≤ |relTol * y|) || decide (|y - x| ≤ |relTol * x|) ||
        decide (|y - x| ≤ absTol)
    | _, _ => false

/-- Decoded document values, §3 of the spec (`dict` / `list` / `str` / `int`
/ `float` / `bool` / `None` / `bytes`).  Object keys are modelled as strings
(unique in any decoded document). -/
inductive Value where
  | obj : List (String × Value) → Value
  | list : List Value → Value
  | str : String → Value
  | int : Int → Value
  | float : PyFloat → Value
  | bool : Bool → Value
  | null : Value
  | bytes : String → Value

/-- Python `type(d)` as a tag; `type(True)` is `bool`, distinct from `int`
even though `bool` is a subclass of `int`. -/
def typeTag : Value → Nat
  | .obj _ => 0
  | .list _ => 1
  | .str _ => 2
  | .int _ => 3
  | .float _ => 4
  | .bool _ => 5
  | .null => 6
  | .bytes _ => 7

/-- Python `isinstance(d, numbers.Number)`: integers, floats and booleans
are numbers. -/
def isNumber : Value → Bool
  | .int _ => true
  | .float _ => true
  | .bool _ => true
  | _ => false

/-- Python `isinstance(d, (int, str, bytes))`, the per-element guard of the
set-comparison branch.  Booleans satisfy it because `bool` is a subclass of
`int` in Python; floats do not. -/
def isIntStrBytes : Value → Bool
  | .int _ => true
  | .bool _ => true
  | .str _ => true
  | .bytes _ => true
  | _ => false

/-- The numeric value of a number operand (`int`, `bool` and `float` all
live in Python's numeric tower; `True` counts as 1 and `False` as 0). -/
def toNum : Value → Option PyFloat
  | .int i => some (.finite (i : ℚ))
  | .bool b => some (.finite (if b then 1 else 0))
  | .float f => some f
  | _ => none

/-- Python `==` restricted to the operand pairs the comparator can actually
compare: two numbers are compared numerically (so `1 == True` and
`1 == 1.0`), same-type scalars are compared directly, and every other pair
compares unequal.  The comparator's final equality test is never reached by
two dicts or two lists (those pairs are consumed by earlier branches), so
the container cases of the catch-all are irrelevant to its behaviour. -/
def pyEq (d1 d2 : Value) : Bool :=
  match toNum d1, toNum d2 with
  | some a, some b => pyNumEq a b
  | _, _ =>
    match d1, d2 with
    | .str a, .str b => decide (a = b)
    | .bytes a, .bytes b => decide (a = b)
    | .null, .null => true
    | _, _ => false

/-- A single quote character, for rendering `str(b"...")`. -/
def squote : String := (Char.ofNat 39).toString

/-- Python `str(d)` for the scalars admitted by the set branch (`int`,
`str`, `bytes`, and `bool` via the subclass); rendered bytes are modelled
without escape sequences.  Other values never reach this rendering because
of the `isinstance` guard. -/
def strOfSetElem : Value → String
  | .int i => toString i
  | .str s => s
  | .bytes s => "b" ++ squote ++ s ++ squote
  | .bool b => if b then "True" else "False"
  | _ => ""

/-- Python `d in s`, membership by `==`. -/
def pyMem (d : Value) (l : List Value) : Bool :=
  l.any (fun e => pyEq e d)

/-- Python `set(l)`: the distinct elements of `l` under `==`, in first
occurrence order (the actual set iteration order is unspecified). -/
def pySetList : List Value → List Value
  | [] => []
  | d :: rest => d :: (pySetList rest).filter (fun e => !pyEq e d)

/-- Whether a string begins with the path separator (Python
`b.startswith("/")`, decided on the character list). -/
def startsWithSlash (s : String) : Bool := s.data.head? == some '/'

/-- Whether a string ends with the path separator. -/
def endsWithSlash (s : String) : Bool := s.data.getLast? == some '/'

/-- `os.path.join(a, b)` on POSIX for one extra component: an absolute
second component replaces the first, otherwise the parts are joined with a
separator unless one is already present. -/
def pathJoin (a b : String) : String :=
  if startsWithSlash b then b
  else if a = "" || endsWithSlash a then a ++ b
  else a ++ "/" ++ b

/-- Scan for the closing bracket of a character class, returning the class
body and the remaining pattern. -/
def findClose : List Char → Option (List Char × List Char)
  | [] => none
  | c :: rest =>
    if c = ']' then some ([], rest)
    else
      match findClose rest with
      | some (s, r) => some (c :: s, r)
      | none => none

/-- The bracket scan of `fnmatch.translate`: after `[`, an initial `!` and
an immediately following `]` belong to the class body, then the body runs to
the next `]`; `none` means the class is unterminated and the `[` is taken
literally. -/
def classScan (cs : List Char) : Option (List Char × List Char) :=
  match cs with
  | '!' :: ']' :: rest =>
    match findClose rest with
    | some (s, r) => some ('!' :: ']' :: s, r)
    | none => none
  | '!' :: rest =>
    match findClose rest with
    | some (s, r) => some ('!' :: s, r)
    | none => none
  | ']' :: rest =>
    match findClose rest with
    | some (s, r) => some (']' :: s, r)
    | none => none
  | rest => findClose rest

/-- Parse a class body into ranges: `c-d` consumes three characters and
forms a range (a singleton is the range `c-c`); a leading or trailing
hyphen is literal.  This matches the chunk splitting of
`fnmatch.translate`, including its removal of empty ranges. -/
def parseItems : List Char → List (Char × Char)
  | c :: '-' :: d :: rest => (c, d) :: parseItems rest
  | c :: rest => (c, c) :: parseItems rest
  | [] => []

/-- Whether a character is matched by a class body (with optional leading
`!` negation).  A bare `!` matches any character; an empty body matches
none, as in `fnmatch.translate`. -/
def classMatch (stuff : List Char) (c : Char) : Bool :=
  match stuff with
  | '!' :: rest => !((parseItems rest).any (fun p => p.1 ≤ c && c ≤ p.2))
  | _ => (parseItems stuff).any (fun p => p.1 ≤ c && c ≤ p.2)

/-- The glob matcher of `fnmatch.fnmatchcase` (full match against the
translated regex, case untouched on POSIX): `*` matches any run of
characters including the separator, `?` matches exactly one arbitrary
character, `[...]` matches a class, everything else is literal; an
unterminated class makes the `[` literal.  The fuel argument makes the
recursion structural; every recursive call shrinks the pattern or the
subject, so `p.length + s.length + 1` fuel always suffices. -/
def globMatch : Nat → List Char → List Char → Bool
  | 0, _, _ => false
  | fuel + 1, p, s =>
    match p, s with
    | [], [] => true
    | [], _ :: _ => false
    | '*' :: ps, s =>
      globMatch fuel ps s ||
        (match s with
         | [] => false
         | _ :: s2 => globMatch fuel ('*' :: ps) s2)
    | '?' :: ps, _ :: s2 => globMatch fuel ps s2
    | '?' :: _, [] => false
    | '[' :: ps, s =>
      match classScan ps with
      | none =>
        match s with
        | '[' :: s2 => globMatch fuel ps s2
        | _ => false
      | some (stuff, rest) =>
        match s with
        | [] => false
        | c :: s2 => classMatch stuff c && globMatch fuel rest s2
    | c :: ps, c2 :: s2 => decide (c = c2) && globMatch fuel ps s2
    | _ :: _, [] => false

/-- `fnmatch.fnmatch(name, pat)` on a POSIX system (where
`os.path.normcase` is the identity, so matching is case sensitive). -/
def fnmatch (name pat : String) : Bool :=
  globMatch (pat.length + name.length + 1) pat.toList name.toList

/-- The `_ignore` helper of the source: whether `path` matches any of the
glob patterns of the ignore set. -/
def _ignore (ignore : List String) (path : String) : Bool :=
  ignore.any (fun f => fnmatch path f)

/-- One emitted line of the comparator, carrying the data the source
interpolates into the printed text (§3 `ChangeRecord` of the spec). -/
inductive ChangeRecord where
  | removed (path : String)
  | added (path : String)
  | listGrown (path : String) (n : Nat)
  | listShrunk (path : String) (n : Nat)
  | typeChanged (path : String) (left right : Value)
  | valueChangedFloat (path : String) (left right : PyFloat)
  | valueChanged (path : String) (left right : Value)

/-- Python `d2[k]` on the association-list model of a dict (keys are unique
in any decoded document). -/
def lookupVal (k : String) : List (String × Value) → Option Value
  | [] => none
  | (k2, v) :: rest => if k2 = k then some v else lookupVal k rest

/-- The recursive comparator `diff(d1, d2, path)` of the source, returning
the emitted records in order.  Branches, in the source's priority order:
ignored path; two dicts (removed keys, shared keys recursively, added
keys); two lists of set-eligible scalars under `set_sort` (set difference
both ways, no recursion); two lists positionally (one length record, then
pairwise recursion over the common prefix — the source joins the already
joined `key` onto `path` again, which `os.path.join` collapses because
`key` is absolute); type mismatch unless both operands are numbers; float
tolerance; final `!=` test.  `fuel` makes the recursion structural; each
recursive call decreases `sizeOf` of the left document. -/
def diff (ignore : List String) (set_sort : Bool) :
    Nat → Value → Value → String → List ChangeRecord
  | 0, _, _, _ => []
  | fuel + 1, d1, d2, path =>
    if _ignore ignore path then []
    else
      match d1, d2 with
      | .obj o1, .obj o2 =>
        ((o1.map Prod.fst).filterMap (fun k =>
          if (o2.map Prod.fst).contains k then none
          else
            let key := pathJoin path k
            if _ignore ignore key then none else some (.removed key)))
        ++ (o1.flatMap (fun kv =>
          match lookupVal kv.1 o2 with
          | some w => diff ignore set_sort fuel kv.2 w (pathJoin path kv.1)
          | none => []))
        ++ ((o2.map Prod.fst).filterMap (fun k =>
          if (o1.map Prod.fst).contains k then none
          else
            let key := pathJoin path k
            if _ignore ignore key then none else some (.added key)))
      | .list l1, .list l2 =>
        if set_sort && l1.all isIntStrBytes && l2.all isIntStrBytes then
          let s1 := pySetList l1
          let s2 := pySetList l2
          (s1.filterMap (fun d =>
            if pyMem d s2 then none
            else
              let key := pathJoin path (strOfSetElem d)
              if _ignore ignore key then none else some (.removed key)))
          ++ (s2.filterMap (fun d =>
            if pyMem d s1 then none
            else
              let key := pathJoin path (strOfSetElem d)
              if _ignore ignore key then none else some (.added key)))
        else
          (if l1.length < l2.length then
            [.listGrown path (l2.length - l1.length)]
           else if l2.length < l1.length then
            [.listShrunk path (l1.length - l2.length)]
           else [])
          ++ ((l1.zip l2).enum.flatMap (fun p =>
            let key := pathJoin path (toString p.1)
            diff ignore set_sort fuel p.2.1 p.2.2 (pathJoin path key)))
      | _, _ =>
        if !(isNumber d1 && isNumber d2) && typeTag d1 != typeTag d2 then
          [.typeChanged path d1 d2]
        else
          match d1, d2 with
          | .float f1, .float f2 =>
            if isclose f1 f2 then [] else [.valueChangedFloat path f1 f2]
          | _, _ =>
            if pyEq d1 d2 then [] else [.valueChanged path d1 d2]

/-- The entry point `jsondiff(_d1, _d2, ignore, set_sort)`: run the
comparator from the root path. -/
def jsondiff (fuel : Nat) (d1 d2 : Value) (ignore : List String)
    (set_sort : Bool) : List ChangeRecord :=
  diff ignore set_sort fuel d1 d2 "/"

/-- Whether a document contains no NaN float anywhere (fuelled recursion;
any fuel at least `sizeOf` the document gives the real answer). -/
def nanFree : Nat → Value → Bool
  | 0, _ => true
  | fuel + 1, v =>
    match v with
    | .obj kvs => kvs.all (fun kv => nanFree fuel kv.2)
    | .list vs => vs.all (nanFree fuel)
    | .float .nan => false
    | _ => true

/-- Whether an association list has pairwise distinct keys. -/
def nodupKeysL : List (String × Value) → Bool
  | [] => true
  | (k, _) :: rest => !((rest.map Prod.fst).contains k) && nodupKeysL rest

/-- Whether every object of a document has pairwise distinct keys, as every
document produced by a decoder does (fuelled recursion). -/
def wfKeys : Nat → Value → Bool
  | 0, _ => true
  | fuel + 1, v =>
    match v with
    | .obj kvs => nodupKeysL kvs && kvs.all (fun kv => wfKeys fuel kv.2)
    | .list vs => vs.all (wfKeys fuel)
    | _ => true

/-- Keys of a dict as decoded from the binary object format, before the key
fixup pass runs: integers (to be remapped) or strings. -/
inductive FKey where
  | ki : Int → FKey
  | ks : String → FKey
deriving DecidableEq, Repr

/-- Document values as seen by the key fixup pass (dict keys may still be
integers).  Byte strings carry their decoded text. -/
inductive FVal where
  | dict : List (FKey × FVal) → FVal
  | list : List FVal → FVal
  | str : String → FVal
  | int : Int → FVal
  | float : PyFloat → FVal
  | bool : Bool → FVal
  | null : FVal
  | bytes : String → FVal

/-- The distinct ways `fixup_keys` can raise. -/
inductive FErr where
  | invalidShape
  | decodeError
  | typeError
  | indexError
deriving DecidableEq, Repr

/-- Python list indexing `l[i]`: a negative index within `-len l` counts
from the end; anything else out of `[-len l, len l)` raises `IndexError`
(modelled as `none`). -/
def pyListGet (l : List String) (i : Int) : Option String :=
  if 0 ≤ i then l[i.toNat]?
  else if i.natAbs ≤ l.length then l[l.length - i.natAbs]?
  else none

/-- Decode the key table `[k.decode("utf-8") for k in data[1]]`: every
element must be a byte string; the first non-bytes element raises
(`AttributeError` in Python). -/
def decodeKeys : List FVal → Except FErr (List String)
  | [] => .ok []
  | .bytes s :: rest =>
    match decodeKeys rest with
    | .ok ks => .ok (s :: ks)
    | .error e => .error e
  | _ :: _ => .error .decodeError

/-- One pass over a dict's items: look up `keys[k]` (a non-integer key is a
`TypeError`, an out-of-range integer an `IndexError`), then rewrite the
value with `child`.  Items are processed left to right, as the dict
comprehension of the source evaluates them. -/
def fixupPairs (child : FVal → Except FErr FVal) (keys : List String) :
    List (FKey × FVal) → Except FErr (List (FKey × FVal))
  | [] => .ok []
  | (k, v) :: rest =>
    match k with
    | .ki i =>
      match pyListGet keys i with
      | some name =>
        match child v with
        | .ok v2 =>
          match fixupPairs child keys rest with
          | .ok rest2 => .ok ((.ks name, v2) :: rest2)
          | .error e => .error e
        | .error e => .error e
      | none => .error .indexError
    | .ks _ => .error .typeError

/-- Rewrite the elements of a list with `child`, left to right. -/
def fixupList (child : FVal → Except FErr FVal) :
    List FVal → Except FErr (List FVal)
  | [] => .ok []
  | v :: rest =>
    match child v with
    | .ok v2 =>
      match fixupList child rest with
      | .ok rest2 => .ok (v2 :: rest2)
      | .error e => .error e
    | .error e => .error e

/-- Insertion into a Python dict under construction: an existing key keeps
its position and takes the new value, a new key is appended. -/
def dictInsert (acc : List (FKey × FVal)) (kv : FKey × FVal) :
    List (FKey × FVal) :=
  if (acc.map Prod.fst).contains kv.1 then
    acc.map (fun p => if p.1 == kv.1 then kv else p)
  else acc ++ [kv]

/-- The recursive `helper` of `fixup_keys`: rewrite every dict key through
the key table, walk lists element-wise, pass scalars through (fuelled
recursion; each call decreases `sizeOf` of the document). -/
def fixupVal (keys : List String) : Nat → FVal → Except FErr FVal
  | 0, v => .ok v
  | fuel + 1, v =>
    match v with
    | .dict kvs =>
      match fixupPairs (fixupVal keys fuel) keys kvs with
      | .ok pairs => .ok (.dict (pairs.foldl dictInsert []))
      | .error e => .error e
    | .list vs =>
      match fixupList (fixupVal keys fuel) vs with
      | .ok vs2 => .ok (.list vs2)
      | .error e => .error e
    | x => .ok x

/-- `fixup_keys(data)`: the input must be a two-element list whose second
element is a list (the source's `assert`, `InvalidShape` otherwise); the
key table is decoded and the payload rewritten. -/
def fixup_keys (fuel : Nat) (data : FVal) : Except FErr FVal :=
  match data with
  | .list [obj, .list keyData] =>
    match decodeKeys keyData with
    | .ok keys => fixupVal keys fuel obj
    | .error e => .error e
  | _ => .error .invalidShape

/-- The set-branch eligibility exactly as the spec sentence words it: every
element a scalar of type integer, string or binary-blob — booleans and
floats excluded.  Stated for comparison with the source predicate
`isIntStrBytes`. -/
def specSetEligible (l : List Value) : Bool :=
  l.all (fun v =>
    match v with
    | .int _ => true
    | .str _ => true
    | .bytes _ => true
    | _ => false)

/-- The claim's shape condition on a fixup input: exactly a two-element
list whose second element is a list of byte strings. -/
def claimFixupShape : FVal → Bool
  | .list [_, .list keyData] =>
    keyData.all (fun e =>
      match e with
      | .bytes _ => true
      | _ => false)
  | _ => false

/-- The claim's in-range condition: every integer dict key `k` of the
payload references a position `0 ≤ k < len` of the key table; non-integer
keys are unconstrained (the claim has them pass through). -/
def claimIntKeysInRange (len : Nat) : Nat → FVal → Bool
  | 0, _ => true
  | fuel + 1, v =>
    match v with
    | .dict kvs => kvs.all (fun kv =>
        (match kv.1 with
         | .ki i => decide (0 ≤ i) && decide (i < (len : Int))
         | .ks _ => true) && claimIntKeysInRange len fuel kv.2)
    | .list vs => vs.all (claimIntKeysInRange len fuel)
    | _ => true

/-- Every dict key of the payload is an integer that Python list indexing
resolves in the key table: `-len ≤ k < len`. -/
def goodKeys (len : Nat) : Nat → FVal → Bool
  | 0, _ => true
  | fuel + 1, v =>
    match v with
    | .dict kvs => kvs.all (fun kv =>
        (match kv.1 with
         | .ki i => decide (-(len : Int) ≤ i) && decide (i < (len : Int))
         | .ks _ => false) && goodKeys len fuel kv.2)
    | .list vs => vs.all (goodKeys len fuel)
    | _ => true

/-- The amended success condition of `fixup_keys`: correct outer shape, a
byte-string key table, and every dict key an integer resolvable by Python
list indexing. -/
def fixupOK (fuel : Nat) : FVal → Bool
  | .list [payload, .list keyData] =>
    keyData.all (fun e =>
      match e with
      | .bytes _ => true
      | _ => false) && goodKeys keyData.length fuel payload
  | _ => false

/-- Whether an `Except` result is a success. -/
def exceptIsOk {α : Type} : Except FErr α → Bool
  | .ok _ => true
  | .error _ => false

/- Helper lemmas about sizes, used for fuel sufficiency. -/

theorem value_sizeOf_pos (v : Value) : 0 < sizeOf v := by
  cases v <;> simp

theorem fval_sizeOf_pos (v : FVal) : 0 < sizeOf v := by
  cases v <;> simp

theorem sizeOf_snd_lt_obj {kv : String × Value} {o : List (String × Value)}
    (h : kv ∈ o) : sizeOf kv.2 < sizeOf (Value.obj o) := by
  have h1 : sizeOf kv < sizeOf o := List.sizeOf_lt_of_mem h
  obtain ⟨k, v⟩ := kv
  simp at h1 ⊢
  omega

theorem sizeOf_mem_lt_list {v : Value} {l : List Value}
    (h : v ∈ l) : sizeOf v < sizeOf (Value.list l) := by
  have h1 : sizeOf v < sizeOf l := List.sizeOf_lt_of_mem h
  simp
  omega

theorem sizeOf_snd_lt_dict {kv : FKey × FVal} {o : List (FKey × FVal)}
    (h : kv ∈ o) : sizeOf kv.2 < sizeOf (FVal.dict o) := by
  have h1 : sizeOf kv < sizeOf o := List.sizeOf_lt_of_mem h
  obtain ⟨k, v⟩ := kv
  simp at h1 ⊢
  omega

theorem sizeOf_mem_lt_flist {v : FVal} {l : List FVal}
    (h : v ∈ l) : sizeOf v < sizeOf (FVal.list l) := by
  have h1 : sizeOf v < sizeOf l := List.sizeOf_lt_of_mem h
  simp
  omega

/- Generic list lemmas used by the congruence and monotonicity proofs. -/

theorem flatMapCongr {α β : Type} {l : List α} {f g : α → List β}
    (h : ∀ a ∈ l, f a = g a) : l.flatMap f = l.flatMap g := by
  induction l with
  | nil => rfl
  | cons a t ih =>
    simp only [List.flatMap_cons]
    rw [h a (List.mem_cons_self a t), ih (fun x hx => h x (List.mem_cons_of_mem a hx))]

theorem flatMapNil {α β : Type} {l : List α} {f : α → List β}
    (h : ∀ a ∈ l, f a = []) : l.flatMap f = [] := by
  induction l with
  | nil => rfl
  | cons a t ih =>
    simp only [List.flatMap_cons]
    rw [h a (List.mem_cons_self a t), ih (fun x hx => h x (List.mem_cons_of_mem a hx))]
    rfl

theorem filterMapNil {α β : Type} {l : List α} {f : α → Option β}
    (h : ∀ a ∈ l, f a = none) : l.filterMap f = [] := by
  induction l with
  | nil => rfl
  | cons a t ih =>
    simp only [List.filterMap_cons]
    rw [h a (List.mem_cons_self a t)]
    exact ih (fun x hx => h x (List.mem_cons_of_mem a hx))

theorem filterMapSublist {α β : Type} {f g : α → Option β} (l : List α)
    (h : ∀ a ∈ l, ∀ b, f a = some b → g a = some b) :
    (l.filterMap f).Sublist (l.filterMap g) := by
  induction l with
  | nil => exact List.Sublist.refl _
  | cons a t ih =>
    have ht : ∀ x ∈ t, ∀ b, f x = some b → g x = some b :=
      fun x hx => h x (List.mem_cons_of_mem a hx)
    simp only [List.filterMap_cons]
    cases hfa : f a with
    | none =>
      cases hga : g a with
      | none => exact ih ht
      | some c => exact (ih ht).cons c
    | some b =>
      rw [h a (List.mem_cons_self a t) b hfa]
      exact (ih ht).cons₂ b

theorem flatMapSublist {α β : Type} {f g : α → List β} (l : List α)
    (h : ∀ a ∈ l, (f a).Sublist (g a)) :
    (l.flatMap f).Sublist (l.flatMap g) := by
  induction l with
  | nil => exact List.Sublist.refl _
  | cons a t ih =>
    simp only [List.flatMap_cons]
    exact (h a (List.mem_cons_self a t)).append
      (ih (fun x hx => h x (List.mem_cons_of_mem a hx)))

theorem mem_zip_enum {α : Type} {p : Nat × α × α} {l1 l2 : List α}
    (h : p ∈ (l1.zip l2).enum) : p.2.1 ∈ l1 ∧ p.2.2 ∈ l2 := by
  have h2 : p.2 ∈ l1.zip l2 := by
    have := List.mem_map_of_mem Prod.snd h
    rwa [List.enum_map_snd] at this
  obtain ⟨n, a, b⟩ := p
  exact List.of_mem_zip h2
/-- The comparator's value does not depend on the fuel once the fuel is at
least the size of the left document: the fuel parameter is an artefact of
the embedding, not of the algorithm. -/
theorem diff_fuel_congr (R : List String) (ss : Bool) :
    ∀ f1 f2 d1 d2 path, sizeOf d1 ≤ f1 → sizeOf d1 ≤ f2 →
      diff R ss f1 d1 d2 path = diff R ss f2 d1 d2 path := by
  intro f1
  induction f1 with
  | zero =>
    intro f2 d1 d2 path h1 _
    have := value_sizeOf_pos d1
    omega
  | succ n ih =>
    intro f2 d1 d2 path h1 h2
    cases f2 with
    | zero =>
      have := value_sizeOf_pos d1
      omega
    | succ m =>
      simp only [diff]
      by_cases hig : _ignore R path = true
      · simp [hig]
      · simp only [Bool.not_eq_true] at hig
        simp only [hig, Bool.false_eq_true, if_false]
        cases d1 with
        | obj o1 =>
          cases d2 with
          | obj o2 =>
            dsimp only
            congr 1
            congr 1
            refine flatMapCongr ?_
            intro kv hkv
            cases hl : lookupVal kv.1 o2 with
            | some w =>
              have hs := sizeOf_snd_lt_obj hkv
              exact ih m kv.2 w (pathJoin path kv.1) (by omega) (by omega)
            | none => rfl
          | list l2 => rfl
          | str s => rfl
          | int i => rfl
          | float f => rfl
          | bool b => rfl
          | null => rfl
          | bytes s => rfl
        | list l1 =>
          cases d2 with
          | obj o2 => rfl
          | list l2 =>
            dsimp only
            by_cases hset : (ss && l1.all isIntStrBytes && l2.all isIntStrBytes) = true
            · simp [hset]
            · simp only [Bool.not_eq_true] at hset
              simp only [hset, Bool.false_eq_true, if_false]
              congr 1
              refine flatMapCongr ?_
              intro p hp
              obtain ⟨hp1, _⟩ := mem_zip_enum hp
              have hs := sizeOf_mem_lt_list hp1
              exact ih m p.2.1 p.2.2 _ (by omega) (by omega)
          | str s => rfl
          | int i => rfl
          | float f => rfl
          | bool b => rfl
          | null => rfl
          | bytes s => rfl
        | str s => rfl
        | int i => rfl
        | float f => rfl
        | bool b => rfl
        | null => rfl
        | bytes s => rfl
/- Support lemmas for the reflexivity property. -/

theorem containsOfMem {l : List String} {k : String} (h : k ∈ l) :
    l.contains k = true := by
  simpa using List.elem_eq_true_of_mem h

theorem lookupSelf : ∀ {o : List (String × Value)} {kv : String × Value},
    nodupKeysL o = true → kv ∈ o → lookupVal kv.1 o = some kv.2 := by
  intro o
  induction o with
  | nil =>
    intro kv _ h
    cases h
  | cons hd tl ih =>
    intro kv hnd hm
    obtain ⟨k, v⟩ := hd
    simp only [nodupKeysL] at hnd
    rw [Bool.and_eq_true] at hnd
    obtain ⟨hnk, hnd2⟩ := hnd
    rcases List.mem_cons.mp hm with heq | hmem
    · subst heq
      simp [lookupVal]
    · have hkne : ¬(k = kv.1) := by
        intro he
        have hin : kv.1 ∈ tl.map Prod.fst := List.mem_map_of_mem Prod.fst hmem
        rw [he] at hnk
        rw [containsOfMem hin] at hnk
        simp at hnk
      simp only [lookupVal, hkne, if_false]
      exact ih hnd2 hmem

theorem pyNumEqRefl {f : PyFloat} (h : ¬(f = PyFloat.nan)) :
    pyNumEq f f = true := by
  cases f with
  | finite a => simp [pyNumEq]
  | inf => rfl
  | neginf => rfl
  | nan => exact absurd rfl h

theorem pyEqReflOfElig {v : Value} (h : isIntStrBytes v = true) :
    pyEq v v = true := by
  cases v with
  | int i => simp [pyEq, toNum, pyNumEq]
  | bool b => simp [pyEq, toNum, pyNumEq]
  | str s => simp [pyEq, toNum]
  | bytes s => simp [pyEq, toNum]
  | obj o => simp [isIntStrBytes] at h
  | list l => simp [isIntStrBytes] at h
  | float f => simp [isIntStrBytes] at h
  | null => simp [isIntStrBytes] at h

theorem pySetListSubset : ∀ {l : List Value} {x : Value},
    x ∈ pySetList l → x ∈ l := by
  intro l
  induction l with
  | nil =>
    intro x hx
    simp [pySetList] at hx
  | cons d rest ih =>
    intro x hx
    simp only [pySetList, List.mem_cons] at hx
    rcases hx with he | hf
    · exact List.mem_cons.mpr (Or.inl he)
    · exact List.mem_cons.mpr (Or.inr (ih (List.mem_of_mem_filter hf)))

theorem zipSelfEq {α : Type} : ∀ (l : List α), l.zip l = l.map (fun x => (x, x)) := by
  intro l
  induction l with
  | nil => rfl
  | cons a t ih => simp [List.zip_cons_cons, ih]
theorem mem_enum_zip_self {α : Type} {l : List α} {p : Nat × α × α}
    (h : p ∈ (l.zip l).enum) : p.2.1 = p.2.2 ∧ p.2.1 ∈ l := by
  rw [zipSelfEq] at h
  have h2 : p.2 ∈ l.map (fun x => (x, x)) := by
    have := List.mem_map_of_mem Prod.snd h
    rwa [List.enum_map_snd] at this
  obtain ⟨x, hx, he⟩ := List.mem_map.mp h2
  rw [← he]
  exact ⟨rfl, hx⟩

/-- Comparing a NaN-free, well-keyed document to itself emits nothing (for
any path, since this run carries no ignore rules). -/
theorem diff_self_nil :
    ∀ fuel (v : Value) (path : String) (ss : Bool), sizeOf v ≤ fuel →
      nanFree fuel v = true → wfKeys fuel v = true →
      diff [] ss fuel v v path = [] := by
  intro fuel
  induction fuel with
  | zero =>
    intro v path ss h1 _ _
    have := value_sizeOf_pos v
    omega
  | succ n ih =>
    intro v path ss hs hn hw
    simp only [diff]
    have hig : _ignore [] path = false := rfl
    simp only [hig, Bool.false_eq_true, if_false]
    cases v with
    | obj o =>
      dsimp only
      simp only [nanFree, List.all_eq_true] at hn
      simp only [wfKeys, Bool.and_eq_true, List.all_eq_true] at hw
      obtain ⟨hnd, hwv⟩ := hw
      simp only [List.append_eq_nil]
      refine ⟨⟨?_, ?_⟩, ?_⟩
      · apply filterMapNil
        intro k hk
        rw [containsOfMem hk]
        rfl
      · apply flatMapNil
        intro kv hkv
        rw [lookupSelf hnd hkv]
        have hsz := sizeOf_snd_lt_obj hkv
        exact ih kv.2 (pathJoin path kv.1) ss (by omega) (hn kv hkv) (hwv kv hkv)
      · apply filterMapNil
        intro k hk
        rw [containsOfMem hk]
        rfl
    | list l =>
      dsimp only
      simp only [nanFree, List.all_eq_true] at hn
      simp only [wfKeys, List.all_eq_true] at hw
      by_cases hset : (ss && l.all isIntStrBytes && l.all isIntStrBytes) = true
      · simp only [hset, if_true]
        have helig : l.all isIntStrBytes = true := by
          rw [Bool.and_eq_true, Bool.and_eq_true] at hset
          exact hset.2
        simp only [List.append_eq_nil]
        constructor <;>
          · apply filterMapNil
            intro d hd
            have hdl : d ∈ l := pySetListSubset hd
            have he : isIntStrBytes d = true := List.all_eq_true.mp helig d hdl
            have hm : pyMem d (pySetList l) = true :=
              List.any_eq_true.mpr ⟨d, hd, pyEqReflOfElig he⟩
            rw [hm]
            rfl
      · simp only [Bool.not_eq_true] at hset
        simp only [hset, Bool.false_eq_true, if_false]
        rw [if_neg (Nat.lt_irrefl _), if_neg (Nat.lt_irrefl _), List.nil_append]
        apply flatMapNil
        intro p hp
        obtain ⟨heq, hmem⟩ := mem_enum_zip_self hp
        rw [← heq]
        have hsz := sizeOf_mem_lt_list hmem
        exact ih p.2.1 _ ss (by omega) (hn p.2.1 hmem) (hw p.2.1 hmem)
    | str s =>
      dsimp only
      simp [isNumber, typeTag, pyEq, toNum]
    | int i =>
      dsimp only
      simp [isNumber, typeTag, pyEq, toNum, pyNumEq]
    | float f =>
      cases f with
      | finite a =>
        dsimp only
        simp [isNumber, typeTag, isclose, pyNumEq]
      | inf =>
        dsimp only
        simp [isNumber, typeTag, isclose, pyNumEq]
      | neginf =>
        dsimp only
        simp [isNumber, typeTag, isclose, pyNumEq]
      | nan =>
        simp [nanFree] at hn
    | bool b =>
      dsimp only
      simp [isNumber, typeTag, pyEq, toNum, pyNumEq]
    | null =>
      dsimp only
      simp [isNumber, typeTag, pyEq, toNum]
    | bytes s =>
      dsimp only
      simp [isNumber, typeTag, pyEq, toNum]
theorem filterPassSublist {α : Type} (R R2 : List String)
    (hmono : ∀ p, _ignore R p = true → _ignore R2 p = true)
    (l : List α) (c : α → Bool) (key : α → String)
    (mk : String → ChangeRecord) :
    (l.filterMap (fun a => if c a = true then none
       else if _ignore R2 (key a) = true then none
       else some (mk (key a)))).Sublist
    (l.filterMap (fun a => if c a = true then none
       else if _ignore R (key a) = true then none
       else some (mk (key a)))) := by
  apply filterMapSublist
  intro a _ b hb
  by_cases hc : c a = true
  · rw [if_pos hc] at hb
    cases hb
  · rw [if_neg hc] at hb ⊢
    by_cases hi2 : _ignore R2 (key a) = true
    · rw [if_pos hi2] at hb
      cases hb
    · rw [if_neg hi2] at hb
      have hi1 : ¬(_ignore R (key a) = true) := fun h => hi2 (hmono _ h)
      rw [if_neg hi1]
      exact hb

/-- Core of the monotonic-suppression property: a run whose ignore set
covers at least the paths of another run emits a sublist of the other
run's records (at every node pair and every fuel). -/
theorem diff_mono_sublist (R R2 : List String) (ss : Bool)
    (hmono : ∀ p, _ignore R p = true → _ignore R2 p = true) :
    ∀ fuel d1 d2 path,
      (diff R2 ss fuel d1 d2 path).Sublist (diff R ss fuel d1 d2 path) := by
  intro fuel
  induction fuel with
  | zero =>
    intro d1 d2 path
    exact List.Sublist.refl _
  | succ n ih =>
    intro d1 d2 path
    simp only [diff]
    by_cases hig2 : _ignore R2 path = true
    · simp only [hig2, if_true]
      exact List.nil_sublist _
    · have hig1 : ¬(_ignore R path = true) := fun h => hig2 (hmono path h)
      rw [if_neg hig2, if_neg hig1]
      cases d1 <;> cases d2
      case neg.obj.obj o1 o2 =>
        dsimp only
        refine List.Sublist.append (List.Sublist.append ?_ ?_) ?_
        · exact filterPassSublist R R2 hmono (o1.map Prod.fst) _ _ _
        · apply flatMapSublist
          intro kv _
          cases lookupVal kv.1 o2 with
          | some w => exact ih kv.2 w (pathJoin path kv.1)
          | none => exact List.Sublist.refl _
        · exact filterPassSublist R R2 hmono (o2.map Prod.fst) _ _ _
      case neg.list.list l1 l2 =>
        dsimp only
        by_cases hset : (ss && l1.all isIntStrBytes && l2.all isIntStrBytes) = true
        · rw [if_pos hset, if_pos hset]
          refine List.Sublist.append ?_ ?_
          · exact filterPassSublist R R2 hmono (pySetList l1) _ _ _
          · exact filterPassSublist R R2 hmono (pySetList l2) _ _ _
        · rw [if_neg hset, if_neg hset]
          refine List.Sublist.append (List.Sublist.refl _) ?_
          apply flatMapSublist
          intro p _
          exact ih p.2.1 p.2.2 _
      all_goals exact List.Sublist.refl _
/- Path joining facts used for the ordered-list claim. -/

theorem startsWithSlash_append {a : String} (b : String)
    (h : startsWithSlash a = true) : startsWithSlash (a ++ b) = true := by
  unfold startsWithSlash at *
  rw [String.data_append]
  cases hd : a.data with
  | nil => rw [hd] at h; simp at h
  | cons c t =>
    rw [hd] at h
    simp only [List.head?] at h
    simpa using h

theorem pathJoin_of_abs {a b : String} (h : startsWithSlash b = true) :
    pathJoin a b = b := by
  unfold pathJoin
  rw [if_pos h]

theorem pathJoin_startsWithSlash {a : String} (b : String)
    (h : startsWithSlash a = true) :
    startsWithSlash (pathJoin a b) = true := by
  unfold pathJoin
  by_cases hb : startsWithSlash b = true
  · rw [if_pos hb]
    exact hb
  · rw [if_neg hb]
    by_cases he : (a = "" || endsWithSlash a) = true
    · rw [if_pos he]
      exact startsWithSlash_append b h
    · rw [if_neg he]
      exact startsWithSlash_append b (startsWithSlash_append "/" h)

theorem pathJoin_absorb {path : String} (s : String)
    (h : startsWithSlash path = true) :
    pathJoin path (pathJoin path s) = pathJoin path s :=
  pathJoin_of_abs (pathJoin_startsWithSlash s h)

/- The tolerance test on finite floats, in closed form. -/

theorem isclose_finite (a b : ℚ) :
    isclose (.finite a) (.finite b)
      = decide (|a - b| ≤ max (relTol * max |a| |b|) absTol) := by
  unfold isclose
  by_cases he : a = b
  · subst he
    have h1 : pyNumEq (.finite a) (.finite a) = true := by simp [pyNumEq]
    rw [if_pos h1]
    have h2 : |a - a| ≤ max (relTol * max |a| |a|) absTol := by
      rw [sub_self, abs_zero]
      refine le_max_of_le_right ?_
      norm_num [absTol]
    rw [decide_eq_true h2]
  · have h1 : ¬(pyNumEq (.finite a) (.finite b) = true) := by
      simp [pyNumEq, he]
    rw [if_neg h1]
    dsimp only
    have hstep : (decide (|b - a| ≤ |relTol * b|) || decide (|b - a| ≤ |relTol * a|) ||
        decide (|b - a| ≤ absTol))
        = decide ((|b - a| ≤ |relTol * b| ∨ |b - a| ≤ |relTol * a|) ∨ |b - a| ≤ absTol) := by
      rw [Bool.decide_or, Bool.decide_or]
    rw [hstep]
    apply decide_eq_decide.mpr
    have hr : (0 : ℚ) ≤ relTol := by norm_num [relTol]
    have hcomm : |b - a| = |a - b| := abs_sub_comm b a
    rw [hcomm, abs_mul, abs_mul, abs_of_nonneg hr, mul_max_of_nonneg _ _ hr,
      le_max_iff, le_max_iff]
    tauto
/- Success characterisation of the fixup pass. -/

theorem allCongr {α : Type} {l : List α} {f g : α → Bool}
    (h : ∀ a ∈ l, f a = g a) : l.all f = l.all g := by
  induction l with
  | nil => rfl
  | cons a t ih =>
    simp only [List.all_cons]
    rw [h a (List.mem_cons_self a t), ih (fun x hx => h x (List.mem_cons_of_mem a hx))]

theorem pyListGet_isSome (l : List String) (i : Int) :
    (pyListGet l i).isSome
      = (decide (-(l.length : Int) ≤ i) && decide (i < (l.length : Int))) := by
  unfold pyListGet
  by_cases h0 : (0 : Int) ≤ i
  · rw [if_pos h0]
    have h1 : (-(l.length : Int) ≤ i) := by omega
    rw [decide_eq_true h1, Bool.true_and]
    by_cases h2 : i < (l.length : Int)
    · have h3 : i.toNat < l.length := by omega
      rw [decide_eq_true h2, List.getElem?_eq_getElem h3]
      rfl
    · have h3 : l.length ≤ i.toNat := by omega
      rw [decide_eq_false h2, List.getElem?_eq_none h3]
      rfl
  · rw [if_neg h0]
    by_cases h2 : i.natAbs ≤ l.length
    · rw [if_pos h2]
      have h3 : l.length - i.natAbs < l.length := by omega
      have h4 : (-(l.length : Int) ≤ i) := by omega
      have h5 : i < (l.length : Int) := by omega
      rw [decide_eq_true h4, decide_eq_true h5, List.getElem?_eq_getElem h3]
      rfl
    · rw [if_neg h2]
      have h4 : ¬(-(l.length : Int) ≤ i) := by omega
      rw [decide_eq_false h4, Bool.false_and]
      rfl

theorem decodeKeys_isOk (kd : List FVal) :
    exceptIsOk (decodeKeys kd)
      = kd.all (fun e =>
          match e with
          | .bytes _ => true
          | _ => false) := by
  induction kd with
  | nil => rfl
  | cons a t ih =>
    cases a with
    | bytes s =>
      simp only [decodeKeys, List.all_cons]
      cases ht : decodeKeys t with
      | ok ks =>
        rw [ht] at ih
        simpa using ih
      | error e =>
        rw [ht] at ih
        simpa using ih
    | dict o => rfl
    | list l => rfl
    | str s => rfl
    | int i => rfl
    | float f => rfl
    | bool b => rfl
    | null => rfl

theorem decodeKeys_length : ∀ {kd : List FVal} {ks : List String},
    decodeKeys kd = .ok ks → ks.length = kd.length := by
  intro kd
  induction kd with
  | nil =>
    intro ks h
    cases h
    rfl
  | cons a t ih =>
    intro ks h
    cases a with
    | bytes s =>
      simp only [decodeKeys] at h
      cases ht : decodeKeys t with
      | ok ks2 =>
        rw [ht] at h
        cases h
        simp [ih ht]
      | error e =>
        rw [ht] at h
        cases h
    | dict o => cases h
    | list l => cases h
    | str s => cases h
    | int i => cases h
    | float f => cases h
    | bool b => cases h
    | null => cases h

theorem fixupPairs_isOk (keys : List String) (child : FVal → Except FErr FVal)
    (P : FVal → Bool) :
    ∀ (kvs : List (FKey × FVal)),
      (∀ kv ∈ kvs, exceptIsOk (child kv.2) = P kv.2) →
      exceptIsOk (fixupPairs child keys kvs)
        = kvs.all (fun kv =>
            (match kv.1 with
             | .ki i => (pyListGet keys i).isSome
             | .ks _ => false) && P kv.2) := by
  intro kvs
  induction kvs with
  | nil =>
    intro _
    rfl
  | cons hd tl ih =>
    intro h
    obtain ⟨k, v⟩ := hd
    have hhd := h (k, v) (List.mem_cons_self _ _)
    have htl := ih (fun kv hkv => h kv (List.mem_cons_of_mem _ hkv))
    cases k with
    | ks s => simp [fixupPairs, List.all_cons, exceptIsOk]
    | ki i =>
      simp only [fixupPairs, List.all_cons]
      cases hg : pyListGet keys i with
      | none => simp [hg, exceptIsOk]
      | some name =>
        simp only [hg, Option.isSome_some, Bool.true_and]
        cases hc : child v with
        | error e =>
          rw [hc] at hhd
          simp only [exceptIsOk] at hhd
          simp [← hhd, exceptIsOk]
        | ok v2 =>
          rw [hc] at hhd
          simp only [exceptIsOk] at hhd
          cases hr : fixupPairs child keys tl with
          | error e =>
            rw [hr] at htl
            simp only [exceptIsOk] at htl
            simp [← htl, ← hhd, exceptIsOk]
          | ok rest2 =>
            rw [hr] at htl
            simp only [exceptIsOk] at htl
            simp [← htl, ← hhd, exceptIsOk]

theorem fixupList_isOk (child : FVal → Except FErr FVal) (P : FVal → Bool) :
    ∀ (vs : List FVal),
      (∀ v ∈ vs, exceptIsOk (child v) = P v) →
      exceptIsOk (fixupList child vs) = vs.all P := by
  intro vs
  induction vs with
  | nil =>
    intro _
    rfl
  | cons v tl ih =>
    intro h
    have hhd := h v (List.mem_cons_self _ _)
    have htl := ih (fun x hx => h x (List.mem_cons_of_mem _ hx))
    simp only [fixupList, List.all_cons]
    cases hc : child v with
    | error e =>
      rw [hc] at hhd
      simp only [exceptIsOk] at hhd
      simp [← hhd, exceptIsOk]
    | ok v2 =>
      rw [hc] at hhd
      simp only [exceptIsOk] at hhd
      cases hr : fixupList child tl with
      | error e =>
        rw [hr] at htl
        simp only [exceptIsOk] at htl
        simp [← htl, ← hhd, exceptIsOk]
      | ok rest2 =>
        rw [hr] at htl
        simp only [exceptIsOk] at htl
        simp [← htl, ← hhd, exceptIsOk]

theorem fixupVal_isOk (keys : List String) :
    ∀ fuel (v : FVal), sizeOf v ≤ fuel →
      exceptIsOk (fixupVal keys fuel v) = goodKeys keys.length fuel v := by
  intro fuel
  induction fuel with
  | zero =>
    intro v h
    have := fval_sizeOf_pos v
    omega
  | succ n ih =>
    intro v hsz
    cases v with
    | dict kvs =>
      have hpair := fixupPairs_isOk keys (fixupVal keys n) (goodKeys keys.length n) kvs
        (fun kv hkv => ih kv.2 (by have := sizeOf_snd_lt_dict hkv; omega))
      simp only [fixupVal, goodKeys]
      have hconv : kvs.all (fun kv =>
            (match kv.1 with
             | .ki i => (pyListGet keys i).isSome
             | .ks _ => false) && goodKeys keys.length n kv.2)
          = kvs.all (fun kv =>
            (match kv.1 with
             | .ki i => decide (-(keys.length : Int) ≤ i) && decide (i < (keys.length : Int))
             | .ks _ => false) && goodKeys keys.length n kv.2) := by
        apply allCongr
        intro kv _
        cases hk : kv.1 with
        | ki i =>
          dsimp only
          rw [pyListGet_isSome]
        | ks s => rfl
      rw [← hconv, ← hpair]
      cases hfp : fixupPairs (fixupVal keys n) keys kvs with
      | ok pairs => rfl
      | error e => rfl
    | list vs =>
      have hl := fixupList_isOk (fixupVal keys n) (goodKeys keys.length n) vs
        (fun x hx => ih x (by have := sizeOf_mem_lt_flist hx; omega))
      simp only [fixupVal, goodKeys]
      rw [← hl]
      cases hfp : fixupList (fixupVal keys n) vs with
      | ok vs2 => rfl
      | error e => rfl
    | str s => rfl
    | int i => rfl
    | float f => rfl
    | bool b => rfl
    | null => rfl
    | bytes s => rfl

theorem fixup_keys_ok_iff : ∀ (fuel : Nat) (data : FVal), sizeOf data ≤ fuel →
    exceptIsOk (fixup_keys fuel data) = fixupOK fuel data := by
  intro fuel data hsz
  cases data with
  | list l =>
    cases l with
    | nil => rfl
    | cons a t =>
      cases t with
      | nil => rfl
      | cons b t2 =>
        cases t2 with
        | cons c t3 => cases b <;> rfl
        | nil =>
          cases b with
          | list kd =>
            simp only [fixup_keys, fixupOK]
            cases hdk : decodeKeys kd with
            | error e =>
              have hall := decodeKeys_isOk kd
              rw [hdk] at hall
              simp only [exceptIsOk] at hall
              rw [← hall]
              rfl
            | ok keys =>
              have hall := decodeKeys_isOk kd
              rw [hdk] at hall
              simp only [exceptIsOk] at hall
              rw [← hall, Bool.true_and]
              have hlen : keys.length = kd.length := decodeKeys_length hdk
              rw [← hlen]
              have hsa : sizeOf a ≤ fuel := by
                have := sizeOf_mem_lt_flist (List.mem_cons_self a [FVal.list kd])
                omega
              exact fixupVal_isOk keys fuel a hsa
          | dict o => rfl
          | str s => rfl
          | int i => rfl
          | float f => rfl
          | bool bb => rfl
          | null => rfl
          | bytes s => rfl
  | dict o => rfl
  | str s => rfl
  | int i => rfl
  | float f => rfl
  | bool b => rfl
  | null => rfl
  | bytes s => rfl
/-- Claim C1, counterexample: the claim says a list containing a boolean
element is never compared as a set, but Python's `isinstance(True, int)`
holds, so `[True]` against `[False]` under set-sort takes the set branch
(element-wise Removed/Added records keyed by the element's string form)
rather than the ordered branch (which would emit one ValueChanged at
index 0, as the run with set-sort disabled shows). -/
theorem c1_counterexample :
    specSetEligible [Value.bool true] = false
    ∧ diff [] true 10 (.list [.bool true]) (.list [.bool false]) "/"
        = [.removed "/True", .added "/False"]
    ∧ diff [] false 10 (.list [.bool true]) (.list [.bool false]) "/"
        = [.valueChanged "/0" (.bool true) (.bool false)] :=
  ⟨rfl, rfl, rfl⟩

/-- Claim C1 (amended): with set-sort enabled at a non-ignored path, the
set strategy is selected if and only if every element of both lists is an
integer, boolean, string or byte string (booleans qualify because `bool`
is a subclass of `int`; floats never qualify); otherwise the ordered
strategy runs.  The per-constructor equations pin down the eligibility
predicate exactly. -/
theorem c1_amended :
    (∀ i, isIntStrBytes (.int i) = true)
    ∧ (∀ s, isIntStrBytes (.str s) = true)
    ∧ (∀ s, isIntStrBytes (.bytes s) = true)
    ∧ (∀ b, isIntStrBytes (.bool b) = true)
    ∧ (∀ f, isIntStrBytes (.float f) = false)
    ∧ isIntStrBytes .null = false
    ∧ (∀ o, isIntStrBytes (.obj o) = false)
    ∧ (∀ l, isIntStrBytes (.list l) = false)
    ∧ (∀ (fuel : Nat) (l1 l2 : List Value) (path : String) (R : List String),
        _ignore R path = false →
        ((l1.all isIntStrBytes && l2.all isIntStrBytes) = true →
          diff R true (fuel + 1) (.list l1) (.list l2) path
            = (pySetList l1).filterMap (fun d =>
                if pyMem d (pySetList l2) = true then none
                else if _ignore R (pathJoin path (strOfSetElem d)) = true then none
                else some (.removed (pathJoin path (strOfSetElem d))))
              ++ (pySetList l2).filterMap (fun d =>
                if pyMem d (pySetList l1) = true then none
                else if _ignore R (pathJoin path (strOfSetElem d)) = true then none
                else some (.added (pathJoin path (strOfSetElem d)))))
        ∧ ((l1.all isIntStrBytes && l2.all isIntStrBytes) = false →
          diff R true (fuel + 1) (.list l1) (.list l2) path
            = (if l1.length < l2.length then [.listGrown path (l2.length - l1.length)]
               else if l2.length < l1.length then [.listShrunk path (l1.length - l2.length)]
               else [])
              ++ (l1.zip l2).enum.flatMap (fun p =>
                diff R true fuel p.2.1 p.2.2
                  (pathJoin path (pathJoin path (toString p.1)))))) := by
  refine ⟨fun i => rfl, fun s => rfl, fun s => rfl, fun b => rfl, fun f => rfl,
    rfl, fun o => rfl, fun l => rfl, ?_⟩
  intro fuel l1 l2 path R hig
  constructor
  · intro h
    simp only [diff, hig, Bool.false_eq_true, if_false]
    rw [Bool.true_and, if_pos h]
  · intro h
    simp only [diff, hig, Bool.false_eq_true, if_false]
    rw [Bool.true_and, if_neg (by rw [h]; exact Bool.false_ne_true)]

/-- Claim C1, witness. -/
theorem c1_witness :
    diff [] true 1 (.list [.int 1]) (.list [.int 1]) "/" = [] := by
  have h := ((c1_amended.2.2.2.2.2.2.2.2) 0 [.int 1] [.int 1] "/" [] rfl).1 rfl
  rw [h]
  rfl

/-- Claim C2, counterexample: at `x = 1e10` against `1e10 + 5` the two
floats differ by far more than the absolute tolerance `1e-5`, yet the
comparison emits no record, because `math.isclose` keeps its default
relative tolerance `1e-9` and `5 ≤ 1e-9 * (1e10 + 5)`. -/
theorem c2_counterexample :
    diff [] true 1 (.float (.finite 10000000000))
        (.float (.finite 10000000005)) "/x" = []
    ∧ ¬(|(10000000000 : ℚ) - 10000000005| ≤ 1 / 100000) := by
  have h5 : |(10000000000 : ℚ) - 10000000005| = 5 := by
    rw [abs_sub_comm, show (10000000005 : ℚ) - 10000000000 = 5 from by norm_num]
    exact abs_of_nonneg (by norm_num)
  constructor
  · have hred : diff [] true 1 (.float (.finite 10000000000))
        (.float (.finite 10000000005)) "/x"
        = if isclose (.finite 10000000000) (.finite 10000000005) = true then []
          else [.valueChangedFloat "/x" (.finite 10000000000)
            (.finite 10000000005)] := by
      simp only [diff]
      rw [if_neg (fun hc => Bool.noConfusion hc),
        if_neg (fun hc => Bool.noConfusion hc)]
    have hiso : isclose (.finite 10000000000) (.finite 10000000005) = true := by
      rw [isclose_finite]
      apply decide_eq_true
      rw [h5, abs_of_nonneg (by norm_num : (0:ℚ) ≤ 10000000000),
        abs_of_nonneg (by norm_num : (0:ℚ) ≤ 10000000005),
        max_eq_right (by norm_num : (10000000000:ℚ) ≤ 10000000005)]
      refine le_max_of_le_left ?_
      norm_num [relTol]
    rw [hred, if_pos hiso]
  · rw [h5]
    norm_num

/-- Claim C2 (amended): two finite floats at a non-ignored path emit no
record if and only if `|f1 - f2| ≤ max(1e-9 * max(|f1|, |f2|), 1e-5)` (the
`math.isclose` bound with the source's `abs_tol` and the default
`rel_tol`), and otherwise exactly one float-formatted ValueChanged
record. -/
theorem c2_amended (a b : ℚ) (path : String) (R : List String) (ss : Bool)
    (fuel : Nat) (hig : _ignore R path = false) :
    diff R ss (fuel + 1) (.float (.finite a)) (.float (.finite b)) path
      = if |a - b| ≤ max (relTol * max |a| |b|) absTol then []
        else [.valueChangedFloat path (.finite a) (.finite b)] := by
  have hred : diff R ss (fuel + 1) (.float (.finite a)) (.float (.finite b)) path
      = if isclose (.finite a) (.finite b) = true then []
        else [.valueChangedFloat path (.finite a) (.finite b)] := by
    simp only [diff, hig, Bool.false_eq_true, if_false]
    rw [if_neg (by simp [isNumber, typeTag])]
  rw [hred, isclose_finite]
  simp only [decide_eq_true_eq]

/-- Claim C2, witness: `1.0` against `1.1` yields exactly one ValueChanged
record for the path `/x`. -/
theorem c2_witness :
    diff [] true 1 (.float (.finite 1)) (.float (.finite (11 / 10))) "/x"
      = [.valueChangedFloat "/x" (.finite 1) (.finite (11 / 10))] := by
  have h := c2_amended 1 (11 / 10) "/x" [] true 0 rfl
  have habs : |(1 : ℚ) - 11 / 10| = 1 / 10 := by
    rw [abs_sub_comm, show (11 / 10 : ℚ) - 1 = 1 / 10 from by norm_num]
    exact abs_of_nonneg (by norm_num)
  have hmax : max (relTol * max |(1 : ℚ)| |(11 / 10 : ℚ)|) absTol = absTol := by
    rw [abs_one, abs_of_nonneg (by norm_num : (0:ℚ) ≤ 11 / 10),
      max_eq_right (by norm_num : (1:ℚ) ≤ 11 / 10)]
    exact max_eq_right (by norm_num [relTol, absTol])
  rw [h, if_neg (by rw [habs, hmax]; norm_num [absTol])]

/-- Claim C3, counterexample: a NaN float compared to itself emits a
ValueChanged record (`isclose(nan, nan)` is false), so reflexivity fails
on documents containing NaN — a value `json.load` and the binary decoder
both produce. -/
theorem c3_counterexample :
    jsondiff 2 (.float .nan) (.float .nan) [] true ≠ [] := by
  intro h
  have h2 : ([ChangeRecord.valueChangedFloat "/" PyFloat.nan PyFloat.nan]
      : List ChangeRecord) = [] := h
  cases h2

/-- Claim C3 (amended): a document containing no NaN float, whose objects
have unique keys (as every decoded document does), compared to itself with
no ignore rules and either set-sort setting, emits no records. -/
theorem c3_amended (fuel : Nat) (v : Value) (ss : Bool)
    (hfuel : sizeOf v ≤ fuel) (hnan : nanFree fuel v = true)
    (hkeys : wfKeys fuel v = true) :
    jsondiff fuel v v [] ss = [] :=
  diff_self_nil fuel v "/" ss hfuel hnan hkeys

/-- Claim C3, witness. -/
theorem c3_witness :
    jsondiff 2000 (.obj [("a", .list [.int 1, .float (.finite 1)])])
      (.obj [("a", .list [.int 1, .float (.finite 1)])]) [] true = [] :=
  c3_amended 2000 _ true (by decide) (by decide) (by decide)

/-- Claim C4: in ordered mode (set-sort off, or elements not uniformly
eligible) at a non-ignored absolute path, the comparator emits exactly one
ListGrown record when the right list is longer, exactly one ListShrunk
record when the left list is longer, and then recurses pairwise over the
overlapping prefix, each call at `path/index`; elements beyond the shorter
length are never visited (the recursion ranges over `zip`).  The source's
double `path_join` collapses because the inner key is absolute. -/
theorem c4_thm (fuel : Nat) (l1 l2 : List Value) (path : String)
    (R : List String) (ss : Bool)
    (habs : startsWithSlash path = true)
    (hig : _ignore R path = false)
    (hmode : (ss && l1.all isIntStrBytes && l2.all isIntStrBytes) = false) :
    diff R ss (fuel + 1) (.list l1) (.list l2) path
      = (if l1.length < l2.length then [.listGrown path (l2.length - l1.length)]
         else if l2.length < l1.length then [.listShrunk path (l1.length - l2.length)]
         else [])
        ++ (l1.zip l2).enum.flatMap (fun p =>
            diff R ss fuel p.2.1 p.2.2 (pathJoin path (toString p.1))) := by
  simp only [diff, hig, Bool.false_eq_true, if_false]
  rw [if_neg (by rw [hmode]; exact Bool.false_ne_true)]
  congr 1
  apply flatMapCongr
  intro p _
  rw [pathJoin_absorb (toString p.1) habs]

/-- Claim C4, witness: `[1,2,3]` against `[1,2]` in ordered mode yields
exactly one ListShrunk record and nothing else. -/
theorem c4_witness :
    diff [] false 100 (.list [.int 1, .int 2, .int 3])
      (.list [.int 1, .int 2]) "/" = [.listShrunk "/" 1] := by
  have h := c4_thm 99 [.int 1, .int 2, .int 3] [.int 1, .int 2] "/" [] false
    rfl rfl rfl
  rw [h]
  rfl

/-- Claim C5: two objects at a non-ignored path produce, in this order:
Removed records for left-only keys (unless that child path is ignored),
the recursive diffs of the shared keys at `path/key`, and Added records
for right-only keys (unless ignored). -/
theorem c5_thm (fuel : Nat) (o1 o2 : List (String × Value)) (path : String)
    (R : List String) (ss : Bool) (hig : _ignore R path = false) :
    diff R ss (fuel + 1) (.obj o1) (.obj o2) path
      = ((o1.map Prod.fst).filterMap (fun k =>
          if (o2.map Prod.fst).contains k = true then none
          else if _ignore R (pathJoin path k) = true then none
          else some (.removed (pathJoin path k))))
        ++ (o1.flatMap (fun kv =>
          match lookupVal kv.1 o2 with
          | some w => diff R ss fuel kv.2 w (pathJoin path kv.1)
          | none => []))
        ++ ((o2.map Prod.fst).filterMap (fun k =>
          if (o1.map Prod.fst).contains k = true then none
          else if _ignore R (pathJoin path k) = true then none
          else some (.added (pathJoin path k)))) := by
  simp only [diff, hig, Bool.false_eq_true, if_false]

/-- Claim C5, witness: the spec's scenario, in the stated relative
order. -/
theorem c5_witness :
    diff [] false 100 (.obj [("a", .int 1), ("b", .int 2)])
      (.obj [("b", .int 2), ("c", .int 3)]) "/"
      = [.removed "/a", .added "/c"] := by
  have h := c5_thm 99 [("a", .int 1), ("b", .int 2)]
    [("b", .int 2), ("c", .int 3)] "/" [] false rfl
  rw [h]
  rfl
/-- Claim C6, counterexample: `fixup_keys` also fails on inputs the claim
declares successful — a payload with a *string* dict key raises a
`TypeError` even though the shape is exactly right and no integer key is
out of range — and it succeeds on the negative key `-1`, which references
no position `0 ≤ k < len` of the key table, because Python list indexing
counts it from the end. -/
theorem c6_counterexample :
    claimFixupShape (.list [.dict [(.ks "a", .int 1)], .list [.bytes "name"]]) = true
    ∧ claimIntKeysInRange 1 100 (.dict [(.ks "a", .int 1)]) = true
    ∧ fixup_keys 100 (.list [.dict [(.ks "a", .int 1)], .list [.bytes "name"]])
        = .error .typeError
    ∧ claimIntKeysInRange 1 100 (.dict [(.ki (-1), .str "v")]) = false
    ∧ fixup_keys 100 (.list [.dict [(.ki (-1), .str "v")], .list [.bytes "name"]])
        = .ok (.dict [(.ks "name", .str "v")]) :=
  ⟨rfl, rfl, rfl, rfl, rfl⟩

/-- Claim C6 (amended): `fixup_keys` succeeds exactly when the document is
a two-element list whose second element is a list of byte strings and
every dict key of the payload is an integer that Python list indexing
resolves in the key table (`-len ≤ k < len`; negative in-range keys count
from the end); non-integer keys and unresolvable integers are fatal, as is
a wrong shape.  On success integer keys are replaced by their table
entries, lists are rewritten element-wise and scalars pass through
unchanged. -/
theorem c6_amended :
    (∀ (fuel : Nat) (data : FVal), sizeOf data ≤ fuel →
        exceptIsOk (fixup_keys fuel data) = fixupOK fuel data)
    ∧ fixup_keys 100 (.list [.dict [(.ki 0, .str "v")], .list [.bytes "name"]])
        = .ok (.dict [(.ks "name", .str "v")])
    ∧ fixup_keys 100 (.list [.dict [(.ki 5, .str "v")], .list [.bytes "name"]])
        = .error .indexError
    ∧ (∀ (fuel : Nat) (keys : List String) (s : String),
        fixupVal keys (fuel + 1) (.str s) = .ok (.str s))
    ∧ (∀ (fuel : Nat) (keys : List String) (i : Int),
        fixupVal keys (fuel + 1) (.int i) = .ok (.int i)) :=
  ⟨fixup_keys_ok_iff, rfl, rfl, fun _ _ _ => rfl, fun _ _ _ => rfl⟩

/-- Claim C6, witness. -/
theorem c6_witness :
    exceptIsOk (fixup_keys 100000
        (.list [.dict [(.ki 0, .str "v")], .list [.bytes "name"]]))
      = fixupOK 100000 (.list [.dict [(.ki 0, .str "v")], .list [.bytes "name"]]) :=
  c6_amended.1 100000 _ (by decide)

/-- Claim C7: an integer against a float at a non-ignored path never
yields a TypeChanged record (both are numbers, so the type-mismatch branch
is skipped): the pair goes to the final equality test, Python numeric
equality across the mixed types — no record when the values are
numerically equal, exactly one ValueChanged record otherwise.  Both
argument orders behave the same. -/
theorem c7_thm (i : Int) (f : PyFloat) (path : String) (R : List String)
    (ss : Bool) (fuel : Nat) (hig : _ignore R path = false) :
    (diff R ss (fuel + 1) (.int i) (.float f) path
      = if pyNumEq (.finite (i : ℚ)) f = true then []
        else [.valueChanged path (.int i) (.float f)])
    ∧ (diff R ss (fuel + 1) (.float f) (.int i) path
      = if pyNumEq f (.finite (i : ℚ)) = true then []
        else [.valueChanged path (.float f) (.int i)]) := by
  constructor <;>
    · simp only [diff, hig, Bool.false_eq_true, if_false]
      rw [if_neg (by simp [isNumber, typeTag])]
      rfl

/-- Claim C7, witness: `1` against `1.0` yields no record. -/
theorem c7_witness :
    diff [] true 1 (.int 1) (.float (.finite 1)) "/x" = [] := by
  have h := (c7_thm 1 (.finite 1) "/x" [] true 0 rfl).1
  have hc : pyNumEq (.finite ((1 : Int) : ℚ)) (.finite 1) = true := by
    show decide (((1 : Int) : ℚ) = (1 : ℚ)) = true
    exact decide_eq_true (by norm_num)
  rw [h, if_pos hc]

/-- Claim C8: broadening the ignore set never adds a record: if every path
matched by the rule set `R` is also matched by `R2`, then the records of a
run under `R2` form a subset of the records of the run under `R`. -/
theorem c8_thm (fuel : Nat) (v1 v2 : Value) (ss : Bool) (R R2 : List String)
    (hmono : ∀ p, _ignore R p = true → _ignore R2 p = true) :
    jsondiff fuel v1 v2 R2 ss ⊆ jsondiff fuel v1 v2 R ss :=
  (diff_mono_sublist R R2 ss hmono fuel v1 v2 "/").subset

/-- Claim C8, witness. -/
theorem c8_witness :
    jsondiff 100 (.obj [("a", .int 1)]) (.obj []) ["*"] true
      ⊆ jsondiff 100 (.obj [("a", .int 1)]) (.obj []) [] true :=
  c8_thm 100 (.obj [("a", .int 1)]) (.obj []) true [] ["*"]
    (fun _ h => Bool.noConfusion h)

/-- Claim C9, counterexample: the claim says an invalid glob pattern
matches nothing, but fnmatch treats an unterminated character class
literally, so the invalid pattern matches exactly its own literal text —
a path a JSON document can contain. -/
theorem c9_counterexample :
    _ignore ["/a[b"] "/a[b" = true ∧ fnmatch "/a[b" "/a[b" = true :=
  ⟨rfl, rfl⟩

/-- Claim C9 (amended): `_ignore` returns true exactly when the path
matches at least one rule; matching is case sensitive, `*` matches any run
of characters including the separator, `?` matches exactly one arbitrary
character, character classes match as in fnmatch, and an invalid pattern
(unterminated class) is accepted literally — it matches exactly its own
literal text, nothing else, and never errors (the matcher is total). -/
theorem c9_amended :
    (∀ (rules : List String) (path : String),
        _ignore rules path = true ↔ ∃ f ∈ rules, fnmatch path f = true)
    ∧ fnmatch "/Abc" "/abc" = false
    ∧ fnmatch "/abc" "/abc" = true
    ∧ fnmatch "/a/b/c" "/a*c" = true
    ∧ fnmatch "/ab" "/a?" = true
    ∧ fnmatch "//" "/?" = true
    ∧ fnmatch "/" "/?" = false
    ∧ fnmatch "/abc" "/a?" = false
    ∧ fnmatch "/aXc" "/a[A-Z]c" = true
    ∧ fnmatch "/axc" "/a[A-Z]c" = false
    ∧ fnmatch "/a[b" "/a[b" = true
    ∧ fnmatch "/ab" "/a[b" = false
    ∧ fnmatch "/axb" "/a[b" = false := by
  refine ⟨?_, rfl, rfl, rfl, rfl, rfl, rfl, rfl, rfl, rfl, rfl, rfl, rfl⟩
  intro rules path
  simp [_ignore, List.any_eq_true]

/-- Claim C10: a boolean against an integer at a non-ignored path never
yields a TypeChanged record (`bool` is a number), and emits nothing
exactly when the two are numerically equal (`True` is 1, `False` is 0);
otherwise exactly one ValueChanged record.  Both argument orders behave
the same. -/
theorem c10_thm (b : Bool) (i : Int) (path : String) (R : List String)
    (ss : Bool) (fuel : Nat) (hig : _ignore R path = false) :
    (diff R ss (fuel + 1) (.bool b) (.int i) path
      = if (if b then (1 : Int) else 0) = i then []
        else [.valueChanged path (.bool b) (.int i)])
    ∧ (diff R ss (fuel + 1) (.int i) (.bool b) path
      = if i = (if b then (1 : Int) else 0) then []
        else [.valueChanged path (.int i) (.bool b)]) := by
  have key1 : pyEq (.bool b) (.int i)
      = decide ((if b then (1 : Int) else 0) = i) := by
    cases b
    · show decide ((0 : ℚ) = (i : ℚ)) = decide ((0 : Int) = i)
      apply decide_eq_decide.mpr
      constructor <;> intro h <;> exact_mod_cast h
    · show decide ((1 : ℚ) = (i : ℚ)) = decide ((1 : Int) = i)
      apply decide_eq_decide.mpr
      constructor <;> intro h <;> exact_mod_cast h
  have key2 : pyEq (.int i) (.bool b)
      = decide (i = (if b then (1 : Int) else 0)) := by
    cases b
    · show decide ((i : ℚ) = (0 : ℚ)) = decide (i = (0 : Int))
      apply decide_eq_decide.mpr
      constructor <;> intro h <;> exact_mod_cast h
    · show decide ((i : ℚ) = (1 : ℚ)) = decide (i = (1 : Int))
      apply decide_eq_decide.mpr
      constructor <;> intro h <;> exact_mod_cast h
  constructor
  · have hred : diff R ss (fuel + 1) (.bool b) (.int i) path
        = if pyEq (.bool b) (.int i) = true then []
          else [.valueChanged path (.bool b) (.int i)] := by
      simp only [diff, hig, Bool.false_eq_true, if_false]
      rw [if_neg (by simp [isNumber, typeTag])]
    rw [hred, key1]
    simp only [decide_eq_true_eq]
  · have hred : diff R ss (fuel + 1) (.int i) (.bool b) path
        = if pyEq (.int i) (.bool b) = true then []
          else [.valueChanged path (.int i) (.bool b)] := by
      simp only [diff, hig, Bool.false_eq_true, if_false]
      rw [if_neg (by simp [isNumber, typeTag])]
    rw [hred, key2]
    simp only [decide_eq_true_eq]

/-- Claim C10, witness: `True` against `1` yields no record. -/
theorem c10_witness :
    diff [] true 1 (.bool true) (.int 1) "/x" = [] := by
  have h := (c10_thm true 1 "/x" [] true 0 rfl).1
  rw [h]
  norm_num
